import Mathlib

/-!
Verification of the `name` / `iname` query-term predicate
(`src/watchman/query/name.cpp`).

Strings (`w_string`) are byte strings, modelled as `List Nat`.  JSON terms
(`json_ref`) are modelled by an inductive `Json`.  `NameExpr::parse` becomes a
total function into `Except ParseError NameExpr`; a C++ `throw QueryParseError`
becomes `.error (.queryParseError …)`.  `NameExpr::evaluate` becomes a total
function returning `Option Bool`, the model of the C++ `EvaluateResult`
(`std::optional<bool>`): `some b` is a definite match / no-match answer and
`none` the indeterminate result.
-/

namespace Watchman

/-- Byte strings: the model of `w_string` / `w_string_piece`. -/
abbrev w_string := List Nat

/-- The bytes of an ASCII Lean string literal, for readable concrete inputs. -/
def bytes (s : String) : w_string := s.data.map Char.toNat

/-- ASCII `tolower` on one byte. Modelled from the spec: the case-folding half
of the Normalizer (`w_string_piece::asLowerCase`, not under `src/`), "pure
functions for … case folding". -/
def tolowerByte (b : Nat) : Nat := if 65 ≤ b ∧ b ≤ 90 then b + 32 else b

/-- Case folding of a whole string: the model of `asLowerCase`. -/
def asLowerCase (s : w_string) : w_string := s.map tolowerByte

/-- One byte of separator canonicalization: backslash (92) becomes slash (47). -/
def sepByte (b : Nat) : Nat := if b = 92 then 47 else b

/-- Separator canonicalization: the model of `w_string::normalizeSeparators`.
Modelled from the spec: "path-separator canonicalization to one canonical
separator" (the implementation is not under `src/`). -/
def normalizeSeparators (s : w_string) : w_string := s.map sepByte

/-- Case-insensitive string equality: the model of `w_string_equal_caseless`,
comparing byte by byte under `tolower`. Modelled from the spec: "the
case-insensitive comparison path must agree exactly with the folding path"
(the implementation is not under `src/`). -/
def w_string_equal_caseless : w_string → w_string → Bool
  | [], [] => true
  | a :: as, b :: bs => decide (tolowerByte a = tolowerByte b) && w_string_equal_caseless as bs
  | _, _ => false

/-- The model of `json_ref` values: strings, arrays, numbers, and anything
else (`other`). Only these shapes matter to `NameExpr::parse`. -/
inductive Json where
  | str (s : w_string)
  | arr (elems : List Json)
  | num (n : Int)
  | other

/-- Model of `json_ref::isString`. -/
def Json.isString : Json → Bool
  | .str _ => true
  | _ => false

/-- Model of `json_ref::isArray`. -/
def Json.isArray : Json → Bool
  | .arr _ => true
  | _ => false

/-- Model of `json_array_size`: the length of an array, 0 for any other value. -/
def json_array_size : Json → Nat
  | .arr elems => elems.length
  | _ => 0

/-- Model of `json_ref::at`, made total with `Option`: `none` models the out-of-bounds
failure. -/
def Json.atIdx : Json → Nat → Option Json
  | .arr elems, i => elems.get? i
  | _, _ => none

/-- Model of `CaseSensitivity` (declared outside `src/`; the two values used by
`name.cpp`). -/
inductive CaseSensitivity where
  | CaseSensitive
  | CaseInSensitive
deriving DecidableEq

/-- Parse-time failures.  `queryParseError` carries the message pieces passed
to the C++ `QueryParseError` constructor; `outOfRange` models the
out-of-bounds failure of `json_ref::at`. Modelled from the spec: parse
"fails if the outer value is not a list, or its length is outside [2,3]"
(`json_ref::at` is not under `src/`). -/
inductive ParseError where
  | queryParseError (parts : List w_string)
  | outOfRange
deriving DecidableEq

/-- The compiled expression node.  `name` is the stored literal (`none` models
the default-constructed, never-assigned `w_string`); `set` models the
`std::unordered_set` by its insertion list (membership is the only
observation `evaluate` makes of it). -/
structure NameExpr where
  name : Option w_string
  set : List w_string
  caseSensitive : CaseSensitivity
  wholename : Bool
deriving DecidableEq

/-- The per-query execution context: `ctx->getWholeName()` yields the
candidate's full relative path (already separator-normalized by the
collaborator, per the spec). -/
structure QueryContextBase where
  getWholeName : w_string

/-- The candidate file: `file->baseName()` yields its final path component. -/
structure FileResult where
  baseName : w_string

/-- A query, as far as `name.cpp` observes it: its configured case
sensitivity (`query->case_sensitive`, declared outside `src/`). -/
structure Query where
  case_sensitive : CaseSensitivity

/-- The keyword used in error messages (`name.cpp` line 70). -/
def which (cs : CaseSensitivity) : w_string :=
  if cs = CaseSensitivity.CaseInSensitive then bytes "iname" else bytes "name"

/-- The stored form of one pattern string (`name.cpp` lines 112-123): the
insensitive path folds case and then canonicalizes separators, the sensitive
path only canonicalizes separators. -/
def normalizePattern (cs : CaseSensitivity) (s : w_string) : w_string :=
  if cs = CaseSensitivity.CaseInSensitive then
    normalizeSeparators (asLowerCase s)
  else
    normalizeSeparators s

/-- The scope block of `NameExpr::parse` (lines 69, 83-95): with 3 arguments
the third must be the string "basename" or "wholename"; otherwise the default
scope "basename" stands. -/
def parseScope (cs : CaseSensitivity) (elems : List Json) : Except ParseError w_string :=
  if elems.length = 3 then
    match elems.get? 2 with
    | some (Json.str s) =>
      if s ≠ bytes "basename" ∧ s ≠ bytes "wholename" then
        Except.error (ParseError.queryParseError
          [bytes "Invalid scope '", s, bytes "' for ", which cs, bytes " expression"])
      else
        Except.ok s
    | some _ =>
      Except.error (ParseError.queryParseError
        [bytes "Argument 3 to '", which cs, bytes "' must be a string"])
    | none => Except.error ParseError.outOfRange
  else
    Except.ok (bytes "basename")

/-- The pattern block of `NameExpr::parse` (lines 97-132, 137-139): an array
argument is first checked to be all strings, then each element is stored in
normalized form; a string argument becomes the literal, separator-normalized
only. Returns (literal, set). -/
def parsePattern (cs : CaseSensitivity) (j : Json) :
    Except ParseError (Option w_string × List w_string) :=
  match j with
  | Json.arr name_array =>
    if name_array.all Json.isString then
      Except.ok (none, name_array.filterMap (fun ele =>
        match ele with
        | Json.str s => some (normalizePattern cs s)
        | _ => none))
    else
      Except.error (ParseError.queryParseError
        [bytes "Argument 2 to '", which cs,
         bytes "' must be either a string or an array of string"])
  | Json.str s => Except.ok (some (normalizeSeparators s), [])
  | _ =>
    Except.error (ParseError.queryParseError
      [bytes "Argument 2 to '", which cs,
       bytes "' must be either a string or an array of string"])

/-- Model of `NameExpr::parse` (lines 67-142). -/
def parse (term : Json) (caseSensitive : CaseSensitivity) : Except ParseError NameExpr :=
  match term with
  | Json.arr elems =>
    if elems.length > 3 then
      Except.error (ParseError.queryParseError
        [bytes "Invalid number of arguments for '", which caseSensitive, bytes "' term"])
    else
      match parseScope caseSensitive elems with
      | Except.error e => Except.error e
      | Except.ok scope =>
        match elems.get? 1 with
        | none => Except.error ParseError.outOfRange
        | some nameJson =>
          match parsePattern caseSensitive nameJson with
          | Except.error e => Except.error e
          | Except.ok (pat, set) =>
            Except.ok
              { name := pat
                set := set
                caseSensitive := caseSensitive
                wholename := decide (scope = bytes "wholename") }
  | _ =>
    Except.error (ParseError.queryParseError
      [bytes "Expected array for '", which caseSensitive, bytes "' term"])

/-- Model of `NameExpr::parseName` (lines 144-148): sensitivity comes from the query. -/
def parseName (query : Query) (term : Json) : Except ParseError NameExpr :=
  parse term query.case_sensitive

/-- Model of `NameExpr::parseIName` (lines 149-153): sensitivity is fixed insensitive. -/
def parseIName (_query : Query) (term : Json) : Except ParseError NameExpr :=
  parse term CaseSensitivity.CaseInSensitive

/-- The stored literal as the comparison target.  A never-assigned
(default-constructed) `w_string` is modelled as the empty string; no claim
below depends on that choice. -/
def literalTarget (e : NameExpr) : w_string := e.name.getD []

/-- The set branch of `NameExpr::evaluate` (lines 33-51). -/
def setMatch (e : NameExpr) (ctx : QueryContextBase) (file : FileResult) : Option Bool :=
  let str :=
    if e.wholename then
      if e.caseSensitive = CaseSensitivity.CaseInSensitive then
        asLowerCase ctx.getWholeName
      else
        ctx.getWholeName
    else
      if e.caseSensitive = CaseSensitivity.CaseInSensitive then
        asLowerCase file.baseName
      else
        file.baseName
  some (decide (str ∈ e.set))

/-- The literal branch of `NameExpr::evaluate` (lines 53-64). -/
def literalMatch (e : NameExpr) (ctx : QueryContextBase) (file : FileResult) : Option Bool :=
  let str := if e.wholename then ctx.getWholeName else file.baseName
  if e.caseSensitive = CaseSensitivity.CaseInSensitive then
    some (w_string_equal_caseless str (literalTarget e))
  else
    some (decide (str = literalTarget e))

/-- Model of `NameExpr::evaluate` (lines 32-65): dispatch on `!set.empty()`. -/
def evaluate (e : NameExpr) (ctx : QueryContextBase) (file : FileResult) : Option Bool :=
  if !e.set.isEmpty then setMatch e ctx file else literalMatch e ctx file

/-- The candidate string `evaluate` selects, by scope. -/
def candidateOf (e : NameExpr) (ctx : QueryContextBase) (file : FileResult) : w_string :=
  if e.wholename then ctx.getWholeName else file.baseName

/-- Whether a parse result is a success. -/
def parseOk (r : Except ParseError NameExpr) : Bool :=
  match r with
  | Except.ok _ => true
  | Except.error _ => false

instance {ε α : Type} [DecidableEq ε] [DecidableEq α] : DecidableEq (Except ε α)
  | Except.ok a, Except.ok b =>
    if h : a = b then Decidable.isTrue (by rw [h])
    else Decidable.isFalse (by simp [h])
  | Except.ok _, Except.error _ => Decidable.isFalse (by simp)
  | Except.error _, Except.ok _ => Decidable.isFalse (by simp)
  | Except.error a, Except.error b =>
    if h : a = b then Decidable.isTrue (by rw [h])
    else Decidable.isFalse (by simp [h])

theorem tolowerByte_idem (b : Nat) : tolowerByte (tolowerByte b) = tolowerByte b := by
  by_cases h : 65 ≤ b ∧ b ≤ 90
  · have h1 : tolowerByte b = b + 32 := by unfold tolowerByte; rw [if_pos h]
    rw [h1]
    unfold tolowerByte
    rw [if_neg (by omega)]
  · have h1 : tolowerByte b = b := by unfold tolowerByte; rw [if_neg h]
    rw [h1]
    exact h1

theorem sepByte_idem (b : Nat) : sepByte (sepByte b) = sepByte b := by
  by_cases h : b = 92 <;> simp [sepByte, h]

theorem sepByte_tolowerByte_comm (b : Nat) :
    sepByte (tolowerByte b) = tolowerByte (sepByte b) := by
  by_cases h : b = 92
  · subst h
    simp [sepByte, tolowerByte]
  · by_cases h2 : 65 ≤ b ∧ b ≤ 90
    · have h1 : tolowerByte b = b + 32 := by unfold tolowerByte; rw [if_pos h2]
      rw [h1]
      unfold sepByte
      rw [if_neg h, if_neg (by omega), h1]
    · have h1 : tolowerByte b = b := by unfold tolowerByte; rw [if_neg h2]
      rw [h1]
      unfold sepByte
      rw [if_neg h, h1]

theorem asLowerCase_idem (s : w_string) :
    asLowerCase (asLowerCase s) = asLowerCase s := by
  unfold asLowerCase
  rw [List.map_map]
  exact List.map_congr_left fun a _ => tolowerByte_idem a

theorem normalizeSeparators_idem (s : w_string) :
    normalizeSeparators (normalizeSeparators s) = normalizeSeparators s := by
  unfold normalizeSeparators
  rw [List.map_map]
  exact List.map_congr_left fun a _ => sepByte_idem a

theorem normalizeSeparators_asLowerCase_comm (s : w_string) :
    normalizeSeparators (asLowerCase s) = asLowerCase (normalizeSeparators s) := by
  unfold normalizeSeparators asLowerCase
  rw [List.map_map, List.map_map]
  exact List.map_congr_left fun a _ => sepByte_tolowerByte_comm a

theorem normalizePattern_insensitive (s : w_string) :
    normalizePattern CaseSensitivity.CaseInSensitive s
      = asLowerCase (normalizeSeparators s) := by
  unfold normalizePattern
  rw [if_pos rfl]
  exact normalizeSeparators_asLowerCase_comm s

theorem normalizePattern_sep_fixed (cs : CaseSensitivity) (s : w_string) :
    normalizeSeparators (normalizePattern cs s) = normalizePattern cs s := by
  unfold normalizePattern
  by_cases h : cs = CaseSensitivity.CaseInSensitive <;>
    simp [h, normalizeSeparators_idem]

theorem normalizePattern_fold_fixed (s : w_string) :
    asLowerCase (normalizePattern CaseSensitivity.CaseInSensitive s)
      = normalizePattern CaseSensitivity.CaseInSensitive s := by
  rw [normalizePattern_insensitive, asLowerCase_idem]

theorem caseless_eq_fold (a b : w_string) :
    w_string_equal_caseless a b = decide (asLowerCase a = asLowerCase b) := by
  induction a generalizing b with
  | nil => cases b <;> simp [w_string_equal_caseless, asLowerCase]
  | cons x xs ih =>
    cases b with
    | nil => simp [w_string_equal_caseless, asLowerCase]
    | cons y ys => simp [w_string_equal_caseless, asLowerCase, ih]

theorem parsePattern_ok_shape {cs : CaseSensitivity} {j : Json}
    {pat : Option w_string} {st : List w_string}
    (h : parsePattern cs j = Except.ok (pat, st)) :
    (∀ x ∈ st, ∃ s, x = normalizePattern cs s) ∧
    (∀ p, pat = some p → ∃ s, p = normalizeSeparators s) := by
  cases j with
  | str s =>
    simp [parsePattern] at h
    obtain ⟨hp, hs⟩ := h
    subst hp
    subst hs
    exact ⟨by simp, fun p hp => ⟨s, by simpa using hp.symm⟩⟩
  | arr l =>
    simp only [parsePattern] at h
    by_cases hall : l.all Json.isString = true
    · rw [if_pos hall] at h
      rw [Except.ok.injEq, Prod.mk.injEq] at h
      obtain ⟨hp, hs⟩ := h
      subst hp
      subst hs
      refine ⟨fun x hx => ?_, by simp⟩
      rw [List.mem_filterMap] at hx
      obtain ⟨a, _, ha⟩ := hx
      cases a with
      | str s => exact ⟨s, by simpa using ha.symm⟩
      | arr l2 => simp at ha
      | num n => simp at ha
      | other => simp at ha
    · rw [if_neg hall] at h
      simp at h
  | num n => simp [parsePattern] at h
  | other => simp [parsePattern] at h

theorem parse_ok_shape {t : Json} {cs : CaseSensitivity} {n : NameExpr}
    (h : parse t cs = Except.ok n) :
    n.caseSensitive = cs ∧
    (∀ x ∈ n.set, ∃ s, x = normalizePattern cs s) ∧
    (∀ p, n.name = some p → ∃ s, p = normalizeSeparators s) := by
  cases t with
  | str s => simp [parse] at h
  | num m => simp [parse] at h
  | other => simp [parse] at h
  | arr elems =>
    simp only [parse] at h
    by_cases hlen : 3 < elems.length
    · rw [if_pos hlen] at h
      simp at h
    · rw [if_neg hlen] at h
      rcases hps : parseScope cs elems with e | scope
      · simp only [hps] at h
        exact Except.noConfusion h
      · simp only [hps] at h
        rcases hget : elems.get? 1 with _ | nameJson
        · simp only [hget] at h
          exact Except.noConfusion h
        · simp only [hget] at h
          rcases hpp : parsePattern cs nameJson with e | ⟨pat, st⟩
          · simp only [hpp] at h
            exact Except.noConfusion h
          · simp only [hpp] at h
            rw [Except.ok.injEq] at h
            subst h
            exact ⟨rfl, (parsePattern_ok_shape hpp).1, (parsePattern_ok_shape hpp).2⟩

theorem evaluate_eq_candidate (e : NameExpr) (ctx : QueryContextBase) (file : FileResult) :
    evaluate e ctx file =
      if !e.set.isEmpty then
        some (decide ((if e.caseSensitive = CaseSensitivity.CaseInSensitive then
          asLowerCase (candidateOf e ctx file) else candidateOf e ctx file) ∈ e.set))
      else if e.caseSensitive = CaseSensitivity.CaseInSensitive then
        some (w_string_equal_caseless (candidateOf e ctx file) (literalTarget e))
      else
        some (decide (candidateOf e ctx file = literalTarget e)) := by
  unfold evaluate setMatch literalMatch candidateOf
  cases hw : e.wholename <;> cases hc : e.caseSensitive <;> simp [hw, hc]

theorem parse_ok_normalized {t : Json} {cs : CaseSensitivity} {n : NameExpr}
    (h : parse t cs = Except.ok n) :
    (∀ x ∈ n.set, normalizeSeparators x = x ∧
      (cs = CaseSensitivity.CaseInSensitive → asLowerCase x = x)) ∧
    (∀ p, n.name = some p → normalizeSeparators p = p) := by
  obtain ⟨hcs, hset, hname⟩ := parse_ok_shape h
  refine ⟨fun x hx => ?_, fun p hp => ?_⟩
  · obtain ⟨s, rfl⟩ := hset x hx
    refine ⟨normalizePattern_sep_fixed cs s, fun hcs2 => ?_⟩
    subst hcs2
    exact normalizePattern_fold_fixed s
  · obtain ⟨s, rfl⟩ := hname p hp
    exact normalizeSeparators_idem s

theorem evaluate_insensitive_iff {t : Json} {n : NameExpr}
    (ctx : QueryContextBase) (file : FileResult)
    (h : parse t CaseSensitivity.CaseInSensitive = Except.ok n) :
    (evaluate n ctx file = some true ↔
      (if n.set.isEmpty then
        asLowerCase (candidateOf n ctx file) = asLowerCase (literalTarget n)
      else ∃ p ∈ n.set, asLowerCase (candidateOf n ctx file) = asLowerCase p)) := by
  obtain ⟨hcs, hset, _⟩ := parse_ok_shape h
  rw [evaluate_eq_candidate]
  by_cases hemp : n.set.isEmpty = true
  · simp [hemp, hcs, caseless_eq_fold]
  · simp only [hemp, if_false, Bool.not_false, if_true, Bool.not_eq_true]
    simp only [hcs, if_pos rfl, Option.some.injEq, decide_eq_true_eq]
    constructor
    · intro hmem
      refine ⟨asLowerCase (candidateOf n ctx file), hmem, ?_⟩
      rw [asLowerCase_idem]
    · rintro ⟨p, hp, hfold⟩
      obtain ⟨s, rfl⟩ := hset p hp
      rw [hfold, normalizePattern_fold_fixed]
      exact hp

theorem parse_two (cs : CaseSensitivity) (kw p : Json) :
    parse (Json.arr [kw, p]) cs =
      match parsePattern cs p with
      | Except.error e => Except.error e
      | Except.ok (pat, st) =>
        Except.ok { name := pat, set := st, caseSensitive := cs, wholename := false } := by
  have hscope : parseScope cs [kw, p] = Except.ok (bytes "basename") := by
    simp [parseScope]
  have hget : ([kw, p] : List Json).get? 1 = some p := rfl
  have hwn : decide ((bytes "basename" : w_string) = bytes "wholename") = false := by decide
  simp only [parse, hscope, hget]
  rw [if_neg (by simp)]
  rcases hpp : parsePattern cs p with e | ⟨pat, st⟩ <;> simp [hwn]

theorem parse_two_str (cs : CaseSensitivity) (kw : Json) (s : w_string) :
    parse (Json.arr [kw, Json.str s]) cs =
      Except.ok { name := some (normalizeSeparators s), set := [],
                  caseSensitive := cs, wholename := false } := by
  rw [parse_two]
  rfl

theorem filterMap_pattern_map (cs : CaseSensitivity) (l : List w_string) :
    List.filterMap (fun ele =>
        match ele with
        | Json.str s => some (normalizePattern cs s)
        | _ => none) (l.map Json.str) = l.map (normalizePattern cs) := by
  induction l with
  | nil => rfl
  | cons a as ih =>
    rw [List.map_cons, List.filterMap_cons, ih]
    rfl

theorem parse_two_list (cs : CaseSensitivity) (kw : Json) (l : List w_string) :
    parse (Json.arr [kw, Json.arr (l.map Json.str)]) cs =
      Except.ok { name := none, set := l.map (normalizePattern cs),
                  caseSensitive := cs, wholename := false } := by
  rw [parse_two]
  have hall : (l.map Json.str).all Json.isString = true := by
    simp [List.all_map, Json.isString]
  have hpp : parsePattern cs (Json.arr (l.map Json.str)) =
      Except.ok (none, l.map (normalizePattern cs)) := by
    simp only [parsePattern, hall, if_pos]
    rw [filterMap_pattern_map]
  rw [hpp]

theorem parsePattern_ok_input {cs : CaseSensitivity} {j : Json}
    {pat : Option w_string} {st : List w_string}
    (h : parsePattern cs j = Except.ok (pat, st)) :
    (∃ s, j = Json.str s) ∨
    (∃ l, j = Json.arr l ∧ ∀ e ∈ l, ∃ s, e = Json.str s) := by
  cases j with
  | str s => exact Or.inl ⟨s, rfl⟩
  | arr l =>
    refine Or.inr ⟨l, rfl, fun e he => ?_⟩
    simp only [parsePattern] at h
    by_cases hall : l.all Json.isString = true
    · have hstr := (List.all_eq_true.mp hall) e he
      cases e with
      | str s => exact ⟨s, rfl⟩
      | arr l2 => simp [Json.isString] at hstr
      | num m => simp [Json.isString] at hstr
      | other => simp [Json.isString] at hstr
    · rw [if_neg hall] at h
      exact Except.noConfusion h
  | num m => simp [parsePattern] at h
  | other => simp [parsePattern] at h

theorem parse_ok_inv {t : Json} {cs : CaseSensitivity} {n : NameExpr}
    (h : parse t cs = Except.ok n) :
    ∃ elems scope nameJson pat st,
      t = Json.arr elems ∧
      ¬ 3 < elems.length ∧
      parseScope cs elems = Except.ok scope ∧
      elems.get? 1 = some nameJson ∧
      parsePattern cs nameJson = Except.ok (pat, st) ∧
      n = { name := pat, set := st, caseSensitive := cs,
            wholename := decide (scope = bytes "wholename") } := by
  cases t with
  | str s => simp [parse] at h
  | num m => simp [parse] at h
  | other => simp [parse] at h
  | arr elems =>
    simp only [parse] at h
    by_cases hlen : 3 < elems.length
    · rw [if_pos hlen] at h
      simp at h
    · rw [if_neg hlen] at h
      rcases hps : parseScope cs elems with e | scope
      · simp only [hps] at h
        exact Except.noConfusion h
      · simp only [hps] at h
        rcases hget : elems.get? 1 with _ | nameJson
        · simp only [hget] at h
          exact Except.noConfusion h
        · simp only [hget] at h
          rcases hpp : parsePattern cs nameJson with e | ⟨pat, st⟩
          · simp only [hpp] at h
            exact Except.noConfusion h
          · simp only [hpp] at h
            rw [Except.ok.injEq] at h
            exact ⟨elems, scope, nameJson, pat, st, rfl, hlen, hps, hget, hpp, h.symm⟩

/-- Sample nodes and terms used at concrete inputs below. -/
def inameLitTerm : Json := Json.arr [Json.str (bytes "iname"), Json.str (bytes "A.txt")]

def inameLitNode : NameExpr :=
  { name := some (bytes "A.txt"), set := [],
    caseSensitive := CaseSensitivity.CaseInSensitive, wholename := false }

def nameSetTerm : Json :=
  Json.arr [Json.str (bytes "name"), Json.arr [Json.str (bytes "a.txt")]]

def inameSetTerm : Json :=
  Json.arr [Json.str (bytes "iname"), Json.arr [Json.str (bytes "a.txt")]]

def dirXTerm : Json :=
  Json.arr [Json.str (bytes "name"), Json.arr [Json.str (bytes "dir/x")],
    Json.str (bytes "wholename")]

def dirXNode : NameExpr :=
  { name := none, set := [bytes "dir/x"],
    caseSensitive := CaseSensitivity.CaseSensitive, wholename := true }

/-- Claim C1, counterexample: under Insensitive mode the stored literal of
`parse(["iname","A.txt"])` is exactly "A.txt" (only separator-canonicalized),
although case folding would change it; so the literal is not case-folded at
construction even though CaseSensitivity is Insensitive. -/
theorem name_literal_not_folded_cex :
    parse inameLitTerm CaseSensitivity.CaseInSensitive = Except.ok inameLitNode ∧
    inameLitNode.name = some (bytes "A.txt") ∧
    asLowerCase (bytes "A.txt") ≠ bytes "A.txt" :=
  ⟨by decide, rfl, by decide⟩

/-- Claim C1 (amended): every stored pattern value is normalized at
construction time and never re-normalized afterwards — set elements are
separator-canonicalized, and case-folded when CaseSensitivity is Insensitive
(re-applying either transform is the identity on them); the stored literal is
separator-canonicalized only, never case-folded, for both sensitivities. -/
theorem stored_patterns_normalized :
    (∀ (t : Json) (cs : CaseSensitivity) (n : NameExpr), parse t cs = Except.ok n →
      (∀ x ∈ n.set, normalizeSeparators x = x ∧
        (cs = CaseSensitivity.CaseInSensitive → asLowerCase x = x)) ∧
      (∀ p, n.name = some p → normalizeSeparators p = p)) ∧
    (∀ (cs : CaseSensitivity) (kw : Json) (s : w_string),
      parse (Json.arr [kw, Json.str s]) cs =
        Except.ok { name := some (normalizeSeparators s), set := [],
                    caseSensitive := cs, wholename := false }) :=
  ⟨fun _ _ _ h => parse_ok_normalized h, fun cs kw s => parse_two_str cs kw s⟩

/-- Node produced by parsing `["iname",["a.txt"]]` (and, in insensitive
queries, `["name",["a.txt"]]`). -/
def inameSetNode : NameExpr :=
  { name := none, set := [bytes "a.txt"],
    caseSensitive := CaseSensitivity.CaseInSensitive, wholename := false }

/-- Claim C1 (amended), witness. -/
theorem stored_patterns_normalized_witness :
    (parse inameSetTerm CaseSensitivity.CaseInSensitive = Except.ok inameSetNode) ∧
    ((∀ x ∈ inameSetNode.set,
      normalizeSeparators x = x ∧
        (CaseSensitivity.CaseInSensitive = CaseSensitivity.CaseInSensitive →
          asLowerCase x = x)) ∧
     (∀ p, inameSetNode.name = some p → normalizeSeparators p = p)) :=
  ⟨by decide,
   stored_patterns_normalized.1 inameSetTerm CaseSensitivity.CaseInSensitive
     inameSetNode (by decide)⟩

/-- Claim C2: for a node compiled in Insensitive mode, `evaluate` returns a
match exactly when the case-folded candidate equals the case-folded stored
pattern (the literal in Literal mode, some set element in Set mode); and the
Literal-mode caseless comparison agrees exactly with the fold-then-compare
path of Set mode: a literal node and a singleton-set node compiled from the
same pattern string evaluate identically on every candidate. -/
theorem evaluate_insensitive_fold :
    (∀ (t : Json) (n : NameExpr) (ctx : QueryContextBase) (file : FileResult),
      parse t CaseSensitivity.CaseInSensitive = Except.ok n →
      (evaluate n ctx file = some true ↔
        (if n.set.isEmpty then
          asLowerCase (candidateOf n ctx file) = asLowerCase (literalTarget n)
        else ∃ p ∈ n.set, asLowerCase (candidateOf n ctx file) = asLowerCase p))) ∧
    (∀ (s : w_string) (kw kw2 : Json) (ctx : QueryContextBase) (file : FileResult)
      (nL nS : NameExpr),
      parse (Json.arr [kw, Json.str s]) CaseSensitivity.CaseInSensitive = Except.ok nL →
      parse (Json.arr [kw2, Json.arr [Json.str s]]) CaseSensitivity.CaseInSensitive
        = Except.ok nS →
      evaluate nL ctx file = evaluate nS ctx file) := by
  constructor
  · intro t n ctx file h
    exact evaluate_insensitive_iff ctx file h
  · intro s kw kw2 ctx file nL nS hL hS
    have hL2 : parse (Json.arr [kw, Json.str s]) CaseSensitivity.CaseInSensitive =
        Except.ok { name := some (normalizeSeparators s), set := [],
                    caseSensitive := CaseSensitivity.CaseInSensitive, wholename := false } :=
      parse_two_str CaseSensitivity.CaseInSensitive kw s
    have hS2 : parse (Json.arr [kw2, Json.arr [Json.str s]]) CaseSensitivity.CaseInSensitive =
        Except.ok { name := none,
                    set := [normalizePattern CaseSensitivity.CaseInSensitive s],
                    caseSensitive := CaseSensitivity.CaseInSensitive, wholename := false } :=
      parse_two_list CaseSensitivity.CaseInSensitive kw2 [s]
    rw [hL2, Except.ok.injEq] at hL
    rw [hS2, Except.ok.injEq] at hS
    subst hL
    subst hS
    rw [evaluate_eq_candidate, evaluate_eq_candidate]
    simp only [List.isEmpty_nil, Bool.not_true, Bool.false_eq_true, if_false,
      List.isEmpty_cons, Bool.not_false, if_true, if_pos rfl, literalTarget,
      Option.getD_some, caseless_eq_fold, List.mem_singleton, Option.some.injEq]
    simp [candidateOf]
    rw [normalizePattern_insensitive]

/-- Claim C2, witness. -/
theorem evaluate_insensitive_fold_witness :
    (parse inameLitTerm CaseSensitivity.CaseInSensitive = Except.ok inameLitNode) ∧
    (evaluate inameLitNode ⟨bytes "q/a.TXT"⟩ ⟨bytes "a.TXT"⟩ = some true ↔
      (if inameLitNode.set.isEmpty then
        asLowerCase (candidateOf inameLitNode ⟨bytes "q/a.TXT"⟩ ⟨bytes "a.TXT"⟩)
          = asLowerCase (literalTarget inameLitNode)
      else ∃ p ∈ inameLitNode.set,
        asLowerCase (candidateOf inameLitNode ⟨bytes "q/a.TXT"⟩ ⟨bytes "a.TXT"⟩)
          = asLowerCase p)) :=
  ⟨by decide,
   evaluate_insensitive_fold.1 inameLitTerm inameLitNode
     ⟨bytes "q/a.TXT"⟩ ⟨bytes "a.TXT"⟩ (by decide)⟩

/-- Claim C3, counterexample: `parseName` takes its CaseSensitivity from the
query, not from a fixed constant: under a query whose `case_sensitive` is
Insensitive, the node compiled from `["name",["a.txt"]]` does match basename
"A.txt", contradicting the claim that a node compiled from `name(["a.txt"])`
never matches "A.txt". -/
theorem parseName_query_sensitivity_cex :
    parseName { case_sensitive := CaseSensitivity.CaseInSensitive } nameSetTerm
      = Except.ok inameSetNode ∧
    evaluate inameSetNode ⟨bytes "w"⟩ ⟨bytes "A.txt"⟩ = some true :=
  ⟨by decide, by decide⟩

/-- Claim C3 (amended): the two term spellings share the one parser `parse`;
`iname` always passes the fixed Insensitive mode, while `name` passes the
query's configured `case_sensitive` — in both cases the mode is never taken
from the term's own arguments. When the query is case-sensitive,
`name(["a.txt"])` matches basename "a.txt" and does not match "A.txt";
`iname(["a.txt"])` matches "A.txt" even under a case-sensitive query. -/
theorem name_iname_share_parse :
    (∀ (q : Query) (t : Json), parseName q t = parse t q.case_sensitive) ∧
    (∀ (q : Query) (t : Json), parseIName q t = parse t CaseSensitivity.CaseInSensitive) ∧
    ((parseName { case_sensitive := CaseSensitivity.CaseSensitive } nameSetTerm).map
      (fun n => evaluate n ⟨bytes "w"⟩ ⟨bytes "a.txt"⟩) = Except.ok (some true)) ∧
    ((parseName { case_sensitive := CaseSensitivity.CaseSensitive } nameSetTerm).map
      (fun n => evaluate n ⟨bytes "w"⟩ ⟨bytes "A.txt"⟩) = Except.ok (some false)) ∧
    ((parseIName { case_sensitive := CaseSensitivity.CaseSensitive } inameSetTerm).map
      (fun n => evaluate n ⟨bytes "w"⟩ ⟨bytes "A.txt"⟩) = Except.ok (some true)) :=
  ⟨fun _ _ => rfl, fun _ _ => rfl, by decide, by decide, by decide⟩

/-- Claim C4: parse fails, creating no node, whenever the outer value is not
an array or its length is below 2 or above 3; in particular the 1-element
term `["name"]` and the 4-element term `["name","x","basename","extra"]`
both fail to parse. -/
theorem parse_arity_failure :
    (∀ (t : Json) (cs : CaseSensitivity),
      t.isArray = false ∨ json_array_size t < 2 ∨ json_array_size t > 3 →
      parseOk (parse t cs) = false) ∧
    parseOk (parse (Json.arr [Json.str (bytes "name")])
      CaseSensitivity.CaseSensitive) = false ∧
    parseOk (parse (Json.arr [Json.str (bytes "name"), Json.str (bytes "x"),
      Json.str (bytes "basename"), Json.str (bytes "extra")])
      CaseSensitivity.CaseSensitive) = false := by
  refine ⟨fun t cs hbad => ?_, by decide, by decide⟩
  cases t with
  | str s => rfl
  | num m => rfl
  | other => rfl
  | arr elems =>
    rcases hbad with h1 | h2 | h3
    · simp [Json.isArray] at h1
    · have h2l : elems.length < 2 := h2
      have hlen : ¬ 3 < elems.length := by omega
      have hs : parseScope cs elems = Except.ok (bytes "basename") := by
        unfold parseScope
        rw [if_neg (by omega)]
      have hg : elems.get? 1 = none := by
        cases elems with
        | nil => rfl
        | cons a as =>
          cases as with
          | nil => rfl
          | cons b bs =>
            exfalso
            simp only [List.length_cons] at h2l
            omega
      simp only [parse, hs, hg]
      rw [if_neg hlen]
      rfl
    · have h3l : 3 < elems.length := h3
      simp only [parse]
      rw [if_pos h3l]
      rfl

/-- Claim C4, witness. -/
theorem parse_arity_failure_witness :
    (Json.other.isArray = false ∨ json_array_size Json.other < 2 ∨
      json_array_size Json.other > 3) ∧
    parseOk (parse Json.other CaseSensitivity.CaseSensitive) = false :=
  ⟨Or.inl (by decide),
   parse_arity_failure.1 Json.other CaseSensitivity.CaseSensitive (Or.inl (by decide))⟩

/-- Claim C5: a successful parse implies the second element existed and was a
single string or a list in which every element is a string; any other shape
fails to parse with no node created, and the mixed-type list
`["name",["x",5]]` fails to parse. -/
theorem parse_pattern_shape :
    (∀ (t : Json) (cs : CaseSensitivity) (n : NameExpr), parse t cs = Except.ok n →
      ∃ j, t.atIdx 1 = some j ∧
        ((∃ s, j = Json.str s) ∨
         (∃ l, j = Json.arr l ∧ ∀ e ∈ l, ∃ s, e = Json.str s))) ∧
    parseOk (parse (Json.arr [Json.str (bytes "name"),
      Json.arr [Json.str (bytes "x"), Json.num 5]]) CaseSensitivity.CaseSensitive)
      = false := by
  refine ⟨fun t cs n h => ?_, by decide⟩
  obtain ⟨elems, scope, nameJson, pat, st, rfl, hlen, hps, hget, hpp, hn⟩ := parse_ok_inv h
  exact ⟨nameJson, hget, parsePattern_ok_input hpp⟩

/-- Claim C5, witness. -/
theorem parse_pattern_shape_witness :
    (parse nameSetTerm CaseSensitivity.CaseInSensitive = Except.ok inameSetNode) ∧
    (∃ j, nameSetTerm.atIdx 1 = some j ∧
      ((∃ s, j = Json.str s) ∨
       (∃ l, j = Json.arr l ∧ ∀ e ∈ l, ∃ s, e = Json.str s))) :=
  ⟨by decide,
   parse_pattern_shape.1 nameSetTerm CaseSensitivity.CaseInSensitive inameSetNode
     (by decide)⟩

theorem parseScope_three (cs : CaseSensitivity) (kw p j : Json) :
    parseScope cs [kw, p, j] =
      match j with
      | Json.str s =>
        if s ≠ bytes "basename" ∧ s ≠ bytes "wholename" then
          Except.error (ParseError.queryParseError
            [bytes "Invalid scope '", s, bytes "' for ", which cs, bytes " expression"])
        else Except.ok s
      | _ =>
        Except.error (ParseError.queryParseError
          [bytes "Argument 3 to '", which cs, bytes "' must be a string"]) := by
  cases j <;> rfl

/-- Claim C6: a 3-element term fails to parse unless the third element is
exactly the string "basename" or "wholename" (in particular
`["name","x","middle"]` fails), and a 2-element term compiles to a node with
the default basename scope. -/
theorem parse_scope_validation :
    (∀ (cs : CaseSensitivity) (kw p j : Json),
      (∀ s, j = Json.str s → s ≠ bytes "basename" ∧ s ≠ bytes "wholename") →
      parseOk (parse (Json.arr [kw, p, j]) cs) = false) ∧
    (∀ (cs : CaseSensitivity) (kw p : Json) (n : NameExpr),
      parse (Json.arr [kw, p]) cs = Except.ok n → n.wholename = false) ∧
    parseOk (parse (Json.arr [Json.str (bytes "name"), Json.str (bytes "x"),
      Json.str (bytes "middle")]) CaseSensitivity.CaseSensitive) = false := by
  refine ⟨fun cs kw p j hj => ?_, fun cs kw p n h => ?_, by decide⟩
  · cases j with
    | str s =>
      obtain ⟨h1, h2⟩ := hj s rfl
      have h3 : parseScope cs [kw, p, Json.str s] =
          Except.error (ParseError.queryParseError
            [bytes "Invalid scope '", s, bytes "' for ", which cs,
             bytes " expression"]) := by
        rw [parseScope_three]
        exact if_pos ⟨h1, h2⟩
      simp only [parse, h3]
      rw [if_neg (by simp)]
      rfl
    | arr l =>
      have h3 : parseScope cs [kw, p, Json.arr l] =
          Except.error (ParseError.queryParseError
            [bytes "Argument 3 to '", which cs, bytes "' must be a string"]) :=
        parseScope_three cs kw p (Json.arr l)
      simp only [parse, h3]
      rw [if_neg (by simp)]
      rfl
    | num m =>
      have h3 : parseScope cs [kw, p, Json.num m] =
          Except.error (ParseError.queryParseError
            [bytes "Argument 3 to '", which cs, bytes "' must be a string"]) :=
        parseScope_three cs kw p (Json.num m)
      simp only [parse, h3]
      rw [if_neg (by simp)]
      rfl
    | other =>
      have h3 : parseScope cs [kw, p, Json.other] =
          Except.error (ParseError.queryParseError
            [bytes "Argument 3 to '", which cs, bytes "' must be a string"]) :=
        parseScope_three cs kw p Json.other
      simp only [parse, h3]
      rw [if_neg (by simp)]
      rfl
  · rw [parse_two] at h
    rcases hpp : parsePattern cs p with e | ⟨pat, st⟩
    · simp only [hpp] at h
      exact Except.noConfusion h
    · simp only [hpp] at h
      rw [Except.ok.injEq] at h
      rw [← h]

/-- Claim C6, witness. -/
theorem parse_scope_validation_witness :
    (∀ s, Json.str (bytes "middle") = Json.str s →
      s ≠ bytes "basename" ∧ s ≠ bytes "wholename") ∧
    parseOk (parse (Json.arr [Json.str (bytes "name"), Json.str (bytes "x"),
      Json.str (bytes "middle")]) CaseSensitivity.CaseSensitive) = false :=
  ⟨fun s hs => by
    injection hs with h
    subst h
    exact ⟨by decide, by decide⟩,
   parse_scope_validation.1 CaseSensitivity.CaseSensitive (Json.str (bytes "name"))
     (Json.str (bytes "x")) (Json.str (bytes "middle"))
     (fun s hs => by
       injection hs with h
       subst h
       exact ⟨by decide, by decide⟩)⟩

/-- Claim C7: `evaluate` reads the candidate only through the scope-selected
projection — the context's whole relative path when Scope is wholename, the
file's final path component when Scope is basename — and the node compiled
from `name(["dir/x"],"wholename")` under a case-sensitive query matches
exactly the candidates whose (already separator-normalized) whole path,
after separator normalization, equals "dir/x". -/
theorem evaluate_scope_selection :
    (∀ (e : NameExpr) (ctx ctx' : QueryContextBase) (file file' : FileResult),
      candidateOf e ctx file = candidateOf e ctx' file' →
      evaluate e ctx file = evaluate e ctx' file') ∧
    (∀ (n : NameExpr) (ctx : QueryContextBase) (file : FileResult),
      parseName { case_sensitive := CaseSensitivity.CaseSensitive } dirXTerm
        = Except.ok n →
      normalizeSeparators ctx.getWholeName = ctx.getWholeName →
      (evaluate n ctx file = some true ↔
        normalizeSeparators ctx.getWholeName = bytes "dir/x")) := by
  constructor
  · intro e ctx ctx' file file' h
    rw [evaluate_eq_candidate, evaluate_eq_candidate, h]
  · intro n ctx file hp hnorm
    have hpn : parseName { case_sensitive := CaseSensitivity.CaseSensitive } dirXTerm
        = Except.ok dirXNode := by decide
    rw [hpn, Except.ok.injEq] at hp
    subst hp
    rw [evaluate_eq_candidate, hnorm]
    simp [dirXNode, candidateOf]

/-- Claim C7, witness. -/
theorem evaluate_scope_selection_witness :
    (parseName { case_sensitive := CaseSensitivity.CaseSensitive } dirXTerm
      = Except.ok dirXNode) ∧
    (normalizeSeparators (bytes "dir/x") = bytes "dir/x") ∧
    (evaluate dirXNode ⟨bytes "dir/x"⟩ ⟨bytes "x"⟩ = some true ↔
      normalizeSeparators (bytes "dir/x") = bytes "dir/x") :=
  ⟨by decide, by decide,
   evaluate_scope_selection.2 dirXNode ⟨bytes "dir/x"⟩ ⟨bytes "x"⟩
     (by decide) (by decide)⟩

/-- Claim C8, counterexample: for the Insensitive literal
`parse(["iname","Dir\F"])` the stored value is "Dir/F" — separator
canonicalization alone — and differs from case-fold applied after separator
canonicalization; so parse does not apply case folding to every accepted
string value in Insensitive mode. -/
theorem normalization_literal_order_cex :
    parse (Json.arr [Json.str (bytes "iname"), Json.str (bytes "Dir\\F")])
        CaseSensitivity.CaseInSensitive
      = Except.ok { name := some (bytes "Dir/F"), set := [],
                    caseSensitive := CaseSensitivity.CaseInSensitive,
                    wholename := false } ∧
    bytes "Dir/F" ≠ asLowerCase (normalizeSeparators (bytes "Dir\\F")) :=
  ⟨by decide, by decide⟩

/-- Claim C8 (amended): both normalization transforms are pure and
idempotent and they commute; every stored set element equals case-fold
applied after separator canonicalization of the input when CaseSensitivity
is Insensitive (the code folds before canonicalizing, but the transforms
commute), and separator canonicalization alone when Sensitive; the stored
literal is separator canonicalization of the input alone, with no case
folding, in both modes. -/
theorem normalization_transforms :
    (∀ s, normalizeSeparators (normalizeSeparators s) = normalizeSeparators s) ∧
    (∀ s, asLowerCase (asLowerCase s) = asLowerCase s) ∧
    (∀ s, normalizeSeparators (asLowerCase s) = asLowerCase (normalizeSeparators s)) ∧
    (∀ (cs : CaseSensitivity) (kw : Json) (l : List w_string),
      parse (Json.arr [kw, Json.arr (l.map Json.str)]) cs =
        Except.ok { name := none,
                    set := l.map (fun s =>
                      if cs = CaseSensitivity.CaseInSensitive then
                        asLowerCase (normalizeSeparators s)
                      else normalizeSeparators s),
                    caseSensitive := cs, wholename := false }) ∧
    (∀ (cs : CaseSensitivity) (kw : Json) (s : w_string),
      parse (Json.arr [kw, Json.str s]) cs =
        Except.ok { name := some (normalizeSeparators s), set := [],
                    caseSensitive := cs, wholename := false }) := by
  refine ⟨normalizeSeparators_idem, asLowerCase_idem,
    normalizeSeparators_asLowerCase_comm, fun cs kw l => ?_,
    fun cs kw s => parse_two_str cs kw s⟩
  rw [parse_two_list]
  have hmap : l.map (normalizePattern cs) = l.map (fun s =>
      if cs = CaseSensitivity.CaseInSensitive then
        asLowerCase (normalizeSeparators s)
      else normalizeSeparators s) := by
    apply List.map_congr_left
    intro a _
    by_cases hcs : cs = CaseSensitivity.CaseInSensitive
    · subst hcs
      rw [normalizePattern_insensitive, if_pos rfl]
    · rw [if_neg hcs]
      unfold normalizePattern
      rw [if_neg hcs]
  rw [hmap]

/-- Claim C9: evaluation of any node produced by a successful parse is
total: on every context and candidate it returns a definite boolean answer,
never an error and never the indeterminate result. -/
theorem evaluate_total :
    ∀ (t : Json) (cs : CaseSensitivity) (n : NameExpr),
      parse t cs = Except.ok n →
      ∀ (ctx : QueryContextBase) (file : FileResult),
        ∃ b : Bool, evaluate n ctx file = some b := by
  intro t cs n _ ctx file
  rw [evaluate_eq_candidate]
  by_cases h1 : (!n.set.isEmpty) = true
  · rw [if_pos h1]
    exact ⟨_, rfl⟩
  · rw [if_neg h1]
    by_cases h2 : n.caseSensitive = CaseSensitivity.CaseInSensitive
    · rw [if_pos h2]
      exact ⟨_, rfl⟩
    · rw [if_neg h2]
      exact ⟨_, rfl⟩

/-- Claim C9, witness. -/
theorem evaluate_total_witness :
    (parse inameLitTerm CaseSensitivity.CaseInSensitive = Except.ok inameLitNode) ∧
    (∃ b : Bool, evaluate inameLitNode ⟨bytes "w"⟩ ⟨bytes "z.txt"⟩ = some b) :=
  ⟨by decide,
   evaluate_total inameLitTerm CaseSensitivity.CaseInSensitive inameLitNode
     (by decide) ⟨bytes "w"⟩ ⟨bytes "z.txt"⟩⟩

/-- Term `["name",[]]`: the pattern is an empty list. -/
def emptyListTerm : Json := Json.arr [Json.str (bytes "name"), Json.arr []]

/-- Node produced by parsing `["name",[]]`: empty set, unassigned literal. -/
def emptyListNode : NameExpr :=
  { name := none, set := [],
    caseSensitive := CaseSensitivity.CaseSensitive, wholename := false }

/-- Claim C10: `["name",[]]` parses successfully into a node whose set is
empty and whose literal was never assigned, and every evaluate call on that
node dispatches to the Literal-mode branch, comparing the candidate against
the unset literal. -/
theorem parse_empty_list_literal_mode :
    parse emptyListTerm CaseSensitivity.CaseSensitive = Except.ok emptyListNode ∧
    emptyListNode.set = [] ∧
    emptyListNode.name = none ∧
    ∀ (ctx : QueryContextBase) (file : FileResult),
      evaluate emptyListNode ctx file = literalMatch emptyListNode ctx file :=
  ⟨by decide, rfl, rfl, fun ctx file => rfl⟩

end Watchman
